import Mathlib

/-!
Verification development for the `rule_model` Django application
(rule prioritization and matching engine).

The Python source is shallowly embedded:

* `Value` models the Python values stored in / supplied for rule fields
  (`None`, booleans, integers, strings, and related-object querysets).
* `Rule` models the in-memory state of a rule instance
  (`rule_model/models.py`): its attribute map (`getattr`), its field
  metadata (`_meta.get_field_by_name`), optional per-field custom
  presence checkers (`_check_priority_<field>`), optional custom match
  checkers (`check_<field>`), the `priority_sorted_fields`
  configuration and the scalar columns used by the engine.
* Fallible Python code (exceptions such as `AttributeError`,
  `ValueError` from `int('', 2)`, or a raising custom checker) is
  modelled with `Option`: `none` means the call raised.
* The database is a list of records; `queryset.update(priority=...)`
  and `save()` become explicit list transformations.
-/

set_option autoImplicit false

namespace RuleModel

/-- Python values that can appear as a rule field value or a context value. -/
inductive Value where
  | none
  | bool (b : Bool)
  | int (n : Int)
  | str (s : String)
  | qs (elems : List Int)
  deriving DecidableEq, Repr

/-- Python generic truthiness `bool(value)` on the modelled value universe:
`None`, `False`, `0`, `""` and an empty queryset are falsy. -/
def truthy : Value → Bool
  | Value.none => false
  | Value.bool b => b
  | Value.int n => n != 0
  | Value.str s => s != ""
  | Value.qs elems => !elems.isEmpty

/-- Python `==` on the modelled value universe (`operator.eq`):
booleans compare equal to the corresponding integers, as in Python;
querysets / related managers compare by object identity, so two
independently materialised ones are unequal. -/
def pyEq : Value → Value → Bool
  | Value.none, Value.none => true
  | Value.bool a, Value.bool b => a == b
  | Value.bool a, Value.int n => (if a then (1 : Int) else 0) == n
  | Value.int n, Value.bool b => n == (if b then (1 : Int) else 0)
  | Value.int a, Value.int b => a == b
  | Value.str a, Value.str b => a == b
  | _, _ => false

/-- Kind of a model field as reported by `_meta.get_field_by_name`:
a many-to-many relation, a `NullBooleanField`, or any other field. -/
inductive FieldKind where
  | m2m
  | nullBool
  | other
  deriving DecidableEq, Repr

/-- In-memory state of one rule instance
(`PriorityOrderingAbstractModel` / `AbstractRuleModel`).

`attrs` is `getattr` on targeting-field names (`Option.none` models a
missing attribute, i.e. `hasattr` false / `AttributeError`);
`meta` is `_meta.get_field_by_name` (`Option.none` models
`FieldDoesNotExist`); `custom fld` is the `_check_priority_<fld>`
attribute when present, recorded as the outcome of calling it on this
rule (`Option.none` inside means the custom checker raised);
`matchCustom f` is the `check_<f>` method when present. -/
structure Rule where
  pk : Nat
  priority : Int
  is_active : Bool
  deactivate_on_clean_related_m2m : Bool
  attrs : String → Option Value
  meta : String → Option FieldKind
  custom : String → Option (Option Bool)
  matchCustom : String → Option (Value → Option Bool)
  priority_sorted_fields : List String
  params_to_check : List String

/-- `check_qs`: `value.exists()`; raises (`none`) unless the value is a
queryset. -/
def check_qs : Value → Option Bool
  | Value.qs elems => some (!elems.isEmpty)
  | _ => Option.none

/-- `check_default`: `bool(value)`. -/
def check_default (v : Value) : Bool :=
  truthy v

/-- `check_strict`: `value is not None`. -/
def check_strict : Value → Bool
  | Value.none => false
  | _ => true

/-- `get_field_checker`: m2m fields get `check_qs`, `NullBooleanField`
gets `check_strict`, everything else — including a name for which
`get_field_by_name` raises `FieldDoesNotExist` — gets `check_default`. -/
def get_field_checker (r : Rule) (field : String) : Value → Option Bool :=
  match r.meta field with
  | some FieldKind.m2m => check_qs
  | some FieldKind.nullBool => fun v => some (check_strict v)
  | some FieldKind.other => fun v => some (check_default v)
  | Option.none => fun v => some (check_default v)

/-- `check_attr`: `getattr` the field value and apply the checker chosen
by `get_field_checker`. -/
def check_attr (r : Rule) (field : String) : Option Bool :=
  match r.attrs field with
  | Option.none => Option.none
  | some v => get_field_checker r field v

/-- One bit of `priority_bin` for field `fld`:
`checker = getattr(self, "_check_priority_%s" % fld, self.check_attr)`,
then `'1' if hasattr(self, fld) and checker(fld) else '0'`.
`hasattr` short-circuits, so a missing attribute yields bit 0 without
invoking any checker. -/
def priority_bit (r : Rule) (fld : String) : Option Bool :=
  if (r.attrs fld).isSome then
    match r.custom fld with
    | some res => res
    | Option.none => check_attr r fld
  else
    some false

/-- `priority_bin`: the bit mask over `priority_sorted_fields`, most
significant field first; an exception in any checker propagates. -/
def priority_bin (r : Rule) : Option (List Bool) :=
  r.priority_sorted_fields.mapM (priority_bit r)

/-- `int(s, 2)` on a string of `'0'`/`'1'` characters: the empty string
raises `ValueError`, otherwise the bits are read most significant
first. -/
def int_base2 : List Bool → Option Nat
  | [] => Option.none
  | bits => some (bits.foldl (fun acc b => 2 * acc + (if b then 1 else 0)) 0)

/-- `priority_dec`: `int(self.priority_bin, 2)`. -/
def priority_dec (r : Rule) : Option Nat :=
  (priority_bin r).bind int_base2

/-- One stored database row of the rule table. -/
structure DBRec where
  pk : Nat
  priority : Int
  is_active : Bool
  extra : List (String × Value)
  deriving DecidableEq, Repr

/-- `type(self).objects.filter(pk=pk).update(priority=p)`: a targeted
partial update touching only the `priority` column of the rows whose
primary key matches. -/
def db_update_priority (db : List DBRec) (pk : Nat) (p : Int) : List DBRec :=
  db.map (fun rec => if rec.pk = pk then { rec with priority := p } else rec)

/-- `update_priority`: compute `priority_dec`; if it equals the current
in-memory `priority`, return without writing; otherwise assign it in
memory and issue the targeted `priority` column update.  The returned
`Bool` records whether a database write was issued; `Option.none`
models the `ValueError`/checker exception propagating. -/
def update_priority (r : Rule) (db : List DBRec) :
    Option (Rule × List DBRec × Bool) :=
  match priority_dec r with
  | Option.none => Option.none
  | some p =>
    if (p : Int) = r.priority then
      some (r, db, false)
    else
      some ({ r with priority := (p : Int) }, db_update_priority db r.pk (p : Int), true)

/-- `kwargs.get(f)`: a context key absent from the mapping yields Python
`None`. -/
def ctx_get (ctx : String → Option Value) (f : String) : Value :=
  match ctx f with
  | some v => v
  | Option.none => Value.none

/-- The per-field check performed inside `AbstractRuleModel.match` for a
field `f` that is not excluded: use the `check_<f>` method when the
rule defines one, otherwise `partial(operator.eq, getattr(self, f))`
applied to `kwargs.get(f)`.  `Option.none` models an exception
(`AttributeError` from `getattr`, or a raising custom checker). -/
def match_field (r : Rule) (ctx : String → Option Value) (f : String) : Option Bool :=
  match r.matchCustom f with
  | some chk => chk (ctx_get ctx f)
  | Option.none =>
    match r.attrs f with
    | Option.none => Option.none
    | some sv => some (pyEq sv (ctx_get ctx f))

/-- `dict` assignment `d[f] = b`: update in place when the key exists,
else append. -/
def dict_set (d : List (String × Bool)) (f : String) (b : Bool) : List (String × Bool) :=
  if d.any (fun p => p.1 == f) then
    d.map (fun p => if p.1 == f then (p.1, b) else p)
  else
    d ++ [(f, b)]

/-- The loop of `AbstractRuleModel.match` over the remaining
`params_to_check`.  The accumulator carries the running `result`, the
instrumentation list of fields whose checker has actually been invoked,
and `self.validation`. -/
def match_go (r : Rule) (check_all : Bool) (exclude : List String)
    (ctx : String → Option Value) :
    List String → Bool → List String → List (String × Bool) →
    Option (Bool × List String × List (String × Bool))
  | [], result, invoked, valid => some (result, invoked, valid)
  | f :: fs, result, invoked, valid =>
    if f ∈ exclude then
      match_go r check_all exclude ctx fs result invoked valid
    else
      match match_field r ctx f with
      | Option.none => Option.none
      | some true =>
        match_go r check_all exclude ctx fs result (invoked ++ [f]) (dict_set valid f true)
      | some false =>
        if check_all then
          match_go r check_all exclude ctx fs false (invoked ++ [f]) (dict_set valid f false)
        else
          some (false, invoked ++ [f], dict_set valid f false)

/-- `AbstractRuleModel.match(check_all, exclude_check, **kwargs)`:
returns the boolean verdict, the list of fields whose checker was
invoked (instrumentation for the `exclude_check` property), and the
final `self.validation` dictionary.  `Option.none` models a
propagating exception. -/
def matchRule (r : Rule) (check_all : Bool) (exclude : List String)
    (ctx : String → Option Value) :
    Option (Bool × List String × List (String × Bool)) :=
  match_go r check_all exclude ctx r.params_to_check true [] []

/-- What `match_best` observes of one streamed candidate rule: its
priority, whether `current_rule.match(...)` returned true for the given
context, and its `domain_match_by_pattern` flag
(`getattr(current_rule, "domain_match_by_pattern", False)`). -/
structure Candidate where
  id : Nat
  priority : Int
  matched : Bool
  domain_match_by_pattern : Bool
  deriving DecidableEq, Repr

/-- The loop of `BaseRuleManager.match_best`, with `sel` the current
`selected_rule` (`Option.none` = Python `None`). -/
def match_best_go (sel : Option Candidate) : List Candidate → Option Candidate
  | [] => sel
  | c :: rest =>
    if c.matched then
      match sel with
      | some s =>
        if c.priority < s.priority then
          some s
        else if !c.domain_match_by_pattern then
          some c
        else
          match_best_go (some s) rest
      | Option.none =>
        if c.domain_match_by_pattern then
          match_best_go (some c) rest
        else
          some c
    else
      match_best_go sel rest

/-- `BaseRuleManager.match_best` over the streamed candidate list. -/
def match_best (rules : List Candidate) : Option Candidate :=
  match_best_go Option.none rules

/-- `OrderedDict` update for one key/value pair: overwrite in place when
the key is present, otherwise append at the end. -/
def od_insert (d : List (String × Bool)) (kv : String × Bool) : List (String × Bool) :=
  if d.any (fun p => p.1 == kv.1) then
    d.map (fun p => if p.1 == kv.1 then (p.1, kv.2) else p)
  else
    d ++ [kv]

/-- `OrderedDict(mapping)` built from an ordered list of pairs. -/
def ordered_dict (mapping : List (String × Bool)) : List (String × Bool) :=
  mapping.foldl od_insert []

/-- `rule_model.validation.Validation`.  `checkers` is the
`OrderedDict` of zero-argument predicates, each recorded by the boolean
it returns; `validation` is the memoization cache `self.__validation`;
`calls` is instrumentation: the log of predicate invocations. -/
structure Validation where
  checkers : List (String × Bool)
  validation : List (String × Bool)
  calls : List String

/-- `Validation(mapping)`: wrap the predicates in an `OrderedDict`,
start with an empty cache. -/
def Validation.ofList (mapping : List (String × Bool)) : Validation :=
  ⟨ordered_dict mapping, [], []⟩

/-- Lookup in an association list (`d[k]`, `none` = `KeyError`). -/
def alist_get (d : List (String × Bool)) (k : String) : Option Bool :=
  (d.find? (fun p => p.1 == k)).map (fun p => p.2)

/-- `Validation.__getitem__`: return the cached verdict when present;
otherwise invoke the predicate, cache the result, and log the
invocation.  `Option.none` models the `KeyError` for an undeclared
key. -/
def Validation.getItem (v : Validation) (item : String) : Option Bool × Validation :=
  match alist_get v.validation item with
  | some b => (some b, v)
  | Option.none =>
    match alist_get v.checkers item with
    | Option.none => (Option.none, v)
    | some b =>
      (some b, { v with validation := v.validation ++ [(item, b)], calls := v.calls ++ [item] })

/-- `Validation.__iter__`: the declared keys in declaration order. -/
def Validation.keys (v : Validation) : List String :=
  v.checkers.map (fun p => p.1)

/-- `Validation.__len__`. -/
def Validation.len (v : Validation) : Nat :=
  v.checkers.length

/-- The loop behind `all(six.itervalues(self))`: fetch each declared
key through `__getitem__` (memoizing), stopping at the first `False`
as `all` does on a generator. -/
def Validation.nonzero_go : Validation → List String → Option Bool × Validation
  | v, [] => (some true, v)
  | v, k :: ks =>
    match v.getItem k with
    | (some true, v1) => Validation.nonzero_go v1 ks
    | (some false, v1) => (some false, v1)
    | (Option.none, v1) => (Option.none, v1)

/-- `Validation.__nonzero__` / `__bool__`. -/
def Validation.nonzero (v : Validation) : Option Bool × Validation :=
  Validation.nonzero_go v v.keys

/-- Number of times the predicate for `k` has been invoked. -/
def Validation.callCount (v : Validation) (k : String) : Nat :=
  v.calls.count k

/-- Run a sequence of `__getitem__` accesses, keeping only the state. -/
def Validation.runGets (v : Validation) (ops : List String) : Validation :=
  ops.foldl (fun st k => (st.getItem k).2) v

/-- A "rule deactivated automatically" signal emission:
`rule_deactivated_auto_signal.send(sender, rule=m, related=instance)`,
recorded by the primary keys of the rule and of the deleted related
record. -/
structure DeactEvent where
  rulePk : Nat
  relatedPk : Nat
  deriving DecidableEq, Repr

/-- `m.save()`: a full save writes the row's columns from the instance,
after which the `post_save` signal runs `update_priority` on it. -/
def save_rule (m : Rule) (db : List DBRec) : Option (Rule × List DBRec) :=
  match update_priority m
      (db.map (fun rec =>
        if rec.pk = m.pk then { rec with priority := m.priority, is_active := m.is_active }
        else rec)) with
  | Option.none => Option.none
  | some (m1, db1, _) => some (m1, db1)

/-- Body of the loop in `update_priority_on_m2m_model_delete` for one
dependent rule `m` of the pending-recompute ledger: capture the old
priority, `update_priority`, and when the priority changed and
`deactivate_on_clean_related_m2m` is set, clear `is_active`, save, and
emit the deactivation signal. -/
def process_rule (relatedPk : Nat) (m : Rule) (db : List DBRec) :
    Option (Rule × List DBRec × List DeactEvent) :=
  match update_priority m db with
  | Option.none => Option.none
  | some (m1, db1, _) =>
    if m.priority ≠ m1.priority ∧ m1.deactivate_on_clean_related_m2m then
      match save_rule { m1 with is_active := false } db1 with
      | Option.none => Option.none
      | some (m2, db2) => some (m2, db2, [⟨m2.pk, relatedPk⟩])
    else
      some (m1, db1, [])

/-- The loop of `update_priority_on_m2m_model_delete` over a list of
dependent rules, threading the database and concatenating the emitted
signals. -/
def process_rules (relatedPk : Nat) :
    List Rule → List DBRec → Option (List Rule × List DBRec × List DeactEvent)
  | [], db => some ([], db, [])
  | m :: ms, db =>
    match process_rule relatedPk m db with
    | Option.none => Option.none
    | some (m1, db1, evs) =>
      match process_rules relatedPk ms db1 with
      | Option.none => Option.none
      | some (ms1, db2, evs1) => some (m1 :: ms1, db2, evs ++ evs1)

/-- `update_priority_on_m2m_model_delete(sender, instance, ...)`: the
pending-recompute ledger `instance._need_update_priority` maps each
rule type to its list of dependent rules; the handler iterates the
ledger values and processes every dependent rule. -/
def update_priority_on_m2m_model_delete (relatedPk : Nat) (ledger : List (List Rule))
    (db : List DBRec) : Option (List Rule × List DBRec × List DeactEvent) :=
  process_rules relatedPk ledger.flatten db

/-! ### Concrete instances used by witnesses and counterexamples -/

/-- Attribute map of the sample rule: `ref` a populated string, `cats` a
non-empty m2m related set, `uid` the integer 0 (falsy). -/
def wAttrs : String → Option Value := fun f =>
  if f == "ref" then some (Value.str "x")
  else if f == "cats" then some (Value.qs [7])
  else if f == "uid" then some (Value.int 0)
  else Option.none

/-- Field metadata of the sample rule type. -/
def wMeta : String → Option FieldKind := fun f =>
  if f == "cats" then some FieldKind.m2m
  else if f == "ref" then some FieldKind.other
  else if f == "uid" then some FieldKind.other
  else Option.none

/-- No `_check_priority_<fld>` overrides. -/
def noCustom : String → Option (Option Bool) := fun _ => Option.none

/-- No `check_<f>` custom match checkers. -/
def noMatchCustom : String → Option (Value → Option Bool) := fun _ => Option.none

/-- Sample rule with `priority_sorted_fields = ['ref', 'cats', 'uid']`
and a stale stored priority of 0 (the populated pattern is `110`, so
the correct priority is 6). -/
def rW : Rule :=
  { pk := 1, priority := 0, is_active := true,
    deactivate_on_clean_related_m2m := true,
    attrs := wAttrs, meta := wMeta, custom := noCustom,
    matchCustom := noMatchCustom,
    priority_sorted_fields := ["ref", "cats", "uid"],
    params_to_check := [] }

/-- The sample rule after `update_priority` assigned the recomputed
value 6. -/
def rW1 : Rule := { rW with priority := 6 }

/-- Sample database: the sample rule's row (pk 1) and an unrelated row
(pk 2). -/
def dbW : List DBRec :=
  [⟨1, 0, true, [("ref", Value.str "x")]⟩, ⟨2, 5, true, []⟩]

/-- The sample database after the targeted priority write. -/
def dbW1 : List DBRec :=
  [⟨1, 6, true, [("ref", Value.str "x")]⟩, ⟨2, 5, true, []⟩]

/-- Sample rule whose `priority_sorted_fields` is empty. -/
def rEmpty : Rule :=
  { pk := 9, priority := 0, is_active := true,
    deactivate_on_clean_related_m2m := true,
    attrs := wAttrs, meta := wMeta, custom := noCustom,
    matchCustom := noMatchCustom,
    priority_sorted_fields := [], params_to_check := [] }

/-! ### Priority computation and update (claims C1, C4, C5, C9) -/

/-- The priority bitmask only reads the attribute map, the field
metadata, the custom checkers and the field configuration, never the
stored `priority` column. -/
theorem priority_dec_set_priority (r : Rule) (p : Int) :
    priority_dec { r with priority := p } = priority_dec r := rfl

/-- The priority bitmask does not read `is_active`. -/
theorem priority_dec_set_is_active (r : Rule) (b : Bool) :
    priority_dec { r with is_active := b } = priority_dec r := rfl

/-- C1: whenever `update_priority` returns (rather than raising), the
rule's resulting in-memory priority equals `priority_dec`, the base-2
value of the bit string built over `priority_sorted_fields` (most
significant first, bit 1 iff the field is populated per the presence
checker); the recomputed state still yields the same bitmask; and when
a write was issued, every stored row of that rule's primary key holds
exactly that value. -/
theorem update_priority_stores_bitmask (r : Rule) (db : List DBRec)
    (r' : Rule) (db' : List DBRec) (w : Bool)
    (h : update_priority r db = some (r', db', w)) :
    (priority_dec r).map (fun q : Nat => (q : Int)) = some r'.priority ∧
    priority_dec r' = priority_dec r ∧
    (w = true → ∀ rec ∈ db', rec.pk = r.pk → rec.priority = r'.priority) := by
  unfold update_priority at h
  cases hp : priority_dec r with
  | none => rw [hp] at h; exact absurd h (by simp)
  | some p =>
    rw [hp] at h
    dsimp only at h
    by_cases he : (p : Int) = r.priority
    · rw [if_pos he] at h
      simp only [Option.some.injEq, Prod.mk.injEq] at h
      obtain ⟨h1, h2, h3⟩ := h
      subst h1; subst h2; subst h3
      refine ⟨?_, hp, ?_⟩
      · exact congrArg some he
      · intro hw
        exact absurd hw (by decide)
    · rw [if_neg he] at h
      simp only [Option.some.injEq, Prod.mk.injEq] at h
      obtain ⟨h1, h2, h3⟩ := h
      subst h1; subst h2; subst h3
      refine ⟨rfl, (priority_dec_set_priority r (p : Int)).trans hp, ?_⟩
      intro _ rec hrec hpk
      unfold db_update_priority at hrec
      obtain ⟨a, ha, rfl⟩ := List.mem_map.mp hrec
      by_cases hapk : a.pk = r.pk
      · rw [if_pos hapk]
      · rw [if_neg hapk] at hpk ⊢
        exact absurd hpk hapk

/-- C1 witness: the sample rule with populated pattern `110` gets
priority 6 stored in memory and in its database row. -/
theorem update_priority_stores_bitmask_witness :
    (priority_dec rW).map (fun q : Nat => (q : Int)) = some rW1.priority ∧
    priority_dec rW1 = priority_dec rW ∧
    (true = true → ∀ rec ∈ dbW1, rec.pk = rW.pk → rec.priority = rW1.priority) :=
  update_priority_stores_bitmask rW dbW rW1 dbW1 true rfl

/-- C4: `update_priority` is idempotent with respect to persistence:
after any returning call, running it again on the resulting in-memory
state and database performs no write (it recomputes the same value,
finds it equal to the stored one, and returns without persisting). -/
theorem update_priority_idempotent (r : Rule) (db : List DBRec)
    (r' : Rule) (db' : List DBRec) (w : Bool)
    (h : update_priority r db = some (r', db', w)) :
    update_priority r' db' = some (r', db', false) := by
  unfold update_priority at h ⊢
  cases hp : priority_dec r with
  | none => rw [hp] at h; exact absurd h (by simp)
  | some p =>
    rw [hp] at h
    dsimp only at h
    by_cases he : (p : Int) = r.priority
    · rw [if_pos he] at h
      simp only [Option.some.injEq, Prod.mk.injEq] at h
      obtain ⟨h1, h2, h3⟩ := h
      subst h1; subst h2; subst h3
      rw [hp]
      dsimp only
      rw [if_pos he]
    · rw [if_neg he] at h
      simp only [Option.some.injEq, Prod.mk.injEq] at h
      obtain ⟨h1, h2, h3⟩ := h
      subst h1; subst h2; subst h3
      rw [priority_dec_set_priority r (p : Int), hp]
      dsimp only
      simp

/-- C4 witness: running `update_priority` again on the sample rule and
database produced by the first call issues no second write. -/
theorem update_priority_idempotent_witness :
    update_priority rW1 dbW1 = some (rW1, dbW1, false) :=
  update_priority_idempotent rW dbW rW1 dbW1 true rfl

/-- C5: when `update_priority` writes, the write is a targeted partial
update keyed by primary key: the database keeps the same rows in the
same order; every row keeps its primary key, `is_active` flag and
remaining stored fields; rows of other primary keys are completely
untouched; and the rows carrying the rule's primary key get exactly
the recomputed priority. -/
theorem update_priority_write_frame (r : Rule) (db : List DBRec)
    (r' : Rule) (db' : List DBRec)
    (h : update_priority r db = some (r', db', true)) :
    db'.length = db.length ∧
    ∀ (i : Nat) (hi : i < db.length) (hi' : i < db'.length),
      (db'.get ⟨i, hi'⟩).pk = (db.get ⟨i, hi⟩).pk ∧
      (db'.get ⟨i, hi'⟩).is_active = (db.get ⟨i, hi⟩).is_active ∧
      (db'.get ⟨i, hi'⟩).extra = (db.get ⟨i, hi⟩).extra ∧
      ((db.get ⟨i, hi⟩).pk ≠ r.pk → db'.get ⟨i, hi'⟩ = db.get ⟨i, hi⟩) ∧
      ((db.get ⟨i, hi⟩).pk = r.pk → (db'.get ⟨i, hi'⟩).priority = r'.priority) := by
  unfold update_priority at h
  cases hp : priority_dec r with
  | none => rw [hp] at h; exact absurd h (by simp)
  | some p =>
    rw [hp] at h
    dsimp only at h
    by_cases he : (p : Int) = r.priority
    · rw [if_pos he] at h
      exact absurd h (by simp)
    · rw [if_neg he] at h
      simp only [Option.some.injEq, Prod.mk.injEq] at h
      obtain ⟨h1, h2, h3⟩ := h
      subst h1; subst h2
      unfold db_update_priority
      refine ⟨List.length_map db _, ?_⟩
      intro i hi hi'
      have hg : (db.map (fun rec =>
          if rec.pk = r.pk then { rec with priority := (p : Int) } else rec)).get
          ⟨i, hi'⟩ =
          (if (db.get ⟨i, hi⟩).pk = r.pk
            then { db.get ⟨i, hi⟩ with priority := (p : Int) }
            else db.get ⟨i, hi⟩) := by
        simp [List.get_eq_getElem]
      rw [hg]
      by_cases hpk : (db.get ⟨i, hi⟩).pk = r.pk
      · rw [if_pos hpk]
        exact ⟨rfl, rfl, rfl, fun hc => absurd hpk hc, fun _ => rfl⟩
      · rw [if_neg hpk]
        exact ⟨rfl, rfl, rfl, fun _ => rfl, fun hc => absurd hc hpk⟩

/-- C5 witness: the sample write touches only the priority column of
the row with the rule's primary key and leaves the other row alone. -/
theorem update_priority_write_frame_witness :
    dbW1.length = dbW.length ∧
    ∀ (i : Nat) (hi : i < dbW.length) (hi' : i < dbW1.length),
      (dbW1.get ⟨i, hi'⟩).pk = (dbW.get ⟨i, hi⟩).pk ∧
      (dbW1.get ⟨i, hi'⟩).is_active = (dbW.get ⟨i, hi⟩).is_active ∧
      (dbW1.get ⟨i, hi'⟩).extra = (dbW.get ⟨i, hi⟩).extra ∧
      ((dbW.get ⟨i, hi⟩).pk ≠ rW.pk → dbW1.get ⟨i, hi'⟩ = dbW.get ⟨i, hi⟩) ∧
      ((dbW.get ⟨i, hi⟩).pk = rW.pk → (dbW1.get ⟨i, hi'⟩).priority = rW1.priority) :=
  update_priority_write_frame rW dbW rW1 dbW1 rfl

/-- C9 counterexample: on a rule whose `priority_sorted_fields` is
empty, `priority_dec` raises (`int('', 2)` is a `ValueError`) — it
does not return 0. -/
theorem priority_dec_empty_counterexample :
    priority_dec rEmpty = Option.none ∧ priority_dec rEmpty ≠ some 0 := by
  exact ⟨rfl, by decide⟩

/-- C9 amended: for every rule whose `priority_sorted_fields` is empty,
the priority computation raises a `ValueError` (the empty bit string is
rejected by `int(_, 2)`), and `update_priority` propagates the
exception instead of storing 0. -/
theorem priority_dec_empty_raises (r : Rule) (db : List DBRec)
    (h : r.priority_sorted_fields = []) :
    priority_dec r = Option.none ∧ update_priority r db = Option.none := by
  have hb : priority_bin r = some [] := by
    unfold priority_bin; rw [h]; rfl
  have hd : priority_dec r = Option.none := by
    unfold priority_dec; rw [hb]; rfl
  refine ⟨hd, ?_⟩
  unfold update_priority
  rw [hd]

/-- C9 witness: the empty-configuration sample rule raises. -/
theorem priority_dec_empty_raises_witness :
    priority_dec rEmpty = Option.none ∧ update_priority rEmpty dbW = Option.none :=
  priority_dec_empty_raises rEmpty dbW rfl

/-! ### Field checker registry (claim C3) -/

/-- Field metadata exercising all checker kinds: an m2m field, a
`NullBooleanField`, two plain fields, and names outside the metadata. -/
def wMetaC3 : String → Option FieldKind := fun f =>
  if f == "cats" then some FieldKind.m2m
  else if f == "flag" then some FieldKind.nullBool
  else if f == "ref" then some FieldKind.other
  else if f == "uid" then some FieldKind.other
  else Option.none

/-- Rule over `wMetaC3`; the name `ghost` has neither metadata nor an
attribute. -/
def rC3 : Rule :=
  { pk := 3, priority := 0, is_active := true,
    deactivate_on_clean_related_m2m := true,
    attrs := wAttrs, meta := wMetaC3, custom := noCustom,
    matchCustom := noMatchCustom,
    priority_sorted_fields := ["ref", "cats", "uid"],
    params_to_check := [] }

/-- C3: the presence checker resolved for a field is non-emptiness of
the related set for an m2m field; "value is not None" for a
`NullBooleanField` (so `False` counts as populated); generic truthiness
for any other field; and a field name missing from the rule type's
metadata falls back to the default truthiness checker instead of
raising, while a name that is not even an attribute contributes bit 0
to the priority mask without any checker being invoked. -/
theorem field_checker_spec (r : Rule) (f : String) (v : Value) (elems : List Int) :
    (r.meta f = some FieldKind.m2m →
      get_field_checker r f (Value.qs elems) = some (!elems.isEmpty)) ∧
    (r.meta f = some FieldKind.nullBool →
      get_field_checker r f v = some (check_strict v)) ∧
    (r.meta f = some FieldKind.other →
      get_field_checker r f v = some (truthy v)) ∧
    (r.meta f = Option.none →
      get_field_checker r f v = some (truthy v)) ∧
    (r.attrs f = Option.none → priority_bit r f = some false) := by
  refine ⟨?_, ?_, ?_, ?_, ?_⟩
  · intro h; unfold get_field_checker; rw [h]; rfl
  · intro h; unfold get_field_checker; rw [h]
  · intro h; unfold get_field_checker; rw [h]; rfl
  · intro h; unfold get_field_checker; rw [h]; rfl
  · intro h; unfold priority_bit; rw [h]; rfl

/-- C3 witness: concrete dispatch on the sample rule — non-empty m2m
set populated, `False` tri-state populated, `None` tri-state not
populated, integer 0 not populated, unknown name checked by truthiness
without raising, attribute-less name contributing bit 0. -/
theorem field_checker_spec_witness :
    get_field_checker rC3 "cats" (Value.qs [7]) = some true ∧
    get_field_checker rC3 "flag" (Value.bool false) = some true ∧
    get_field_checker rC3 "flag" Value.none = some false ∧
    get_field_checker rC3 "ref" (Value.int 0) = some false ∧
    get_field_checker rC3 "ghost" (Value.str "x") = some true ∧
    priority_bit rC3 "ghost" = some false :=
  ⟨(field_checker_spec rC3 "cats" Value.none [7]).1 rfl,
   (field_checker_spec rC3 "flag" (Value.bool false) []).2.1 rfl,
   (field_checker_spec rC3 "flag" Value.none []).2.1 rfl,
   (field_checker_spec rC3 "ref" (Value.int 0) []).2.2.1 rfl,
   (field_checker_spec rC3 "ghost" (Value.str "x") []).2.2.2.1 rfl,
   (field_checker_spec rC3 "ghost" Value.none []).2.2.2.2 rfl⟩

/-! ### Best-match selection (claim C2) -/

/-- A candidate whose `match` returned false leaves the `match_best`
loop state untouched. -/
theorem match_best_go_cons_nomatch (sel : Option Candidate) (c : Candidate)
    (rest : List Candidate) (hc : c.matched = false) :
    match_best_go sel (c :: rest) = match_best_go sel rest := by
  simp [match_best_go, hc]

/-- A prefix of non-matching candidates is skipped by the `match_best`
loop. -/
theorem match_best_go_skip (sel : Option Candidate) (pre l : List Candidate)
    (hpre : ∀ x ∈ pre, x.matched = false) :
    match_best_go sel (pre ++ l) = match_best_go sel l := by
  induction pre with
  | nil => rfl
  | cons a as ih =>
    rw [List.cons_append,
      match_best_go_cons_nomatch sel a (as ++ l) (hpre a (List.mem_cons_self a as))]
    exact ih (fun x hx => hpre x (List.mem_cons_of_mem a hx))

/-- Step of the `match_best` loop on a matching candidate when nothing
is provisionally selected. -/
theorem match_best_go_cons_none (c : Candidate) (rest : List Candidate)
    (hc : c.matched = true) :
    match_best_go Option.none (c :: rest) =
      (if c.domain_match_by_pattern then match_best_go (some c) rest else some c) := by
  simp [match_best_go, hc]

/-- Step of the `match_best` loop on a matching candidate when a
provisional pattern selection is held. -/
theorem match_best_go_cons_some (s c : Candidate) (rest : List Candidate)
    (hc : c.matched = true) :
    match_best_go (some s) (c :: rest) =
      (if c.priority < s.priority then some s
       else if !c.domain_match_by_pattern then some c
       else match_best_go (some s) rest) := by
  simp [match_best_go, hc]

/-- Rule A of the spec scenario: priority 6, exact (non-pattern) match. -/
def candA : Candidate := ⟨1, 6, true, false⟩

/-- Rule B of the spec scenario: priority 6, pattern match. -/
def candB : Candidate := ⟨2, 6, true, true⟩

/-- Rule C of the spec scenario: priority 4, pattern match. -/
def candC : Candidate := ⟨3, 4, true, true⟩

/-- A non-matching candidate used as stream noise in the witness. -/
def candD : Candidate := ⟨4, 7, false, false⟩

/-- C2: `match_best` returns the first matching non-pattern candidate
immediately; holds a first matching pattern candidate provisionally; with
a provisional selection held, a matching candidate of strictly lower
priority makes it return the provisional immediately, a matching
non-pattern candidate at no lower priority is returned immediately, and
a matching pattern candidate at no lower priority leaves the first-seen
provisional selection in place; concretely the stream [B, A] yields A
and the stream [B, C] yields B. -/
theorem match_best_spec (pre mid rest : List Candidate) (b c : Candidate)
    (hpre : ∀ x ∈ pre, x.matched = false)
    (hmid : ∀ x ∈ mid, x.matched = false) :
    (c.matched = true → c.domain_match_by_pattern = false →
      match_best (pre ++ c :: rest) = some c) ∧
    (c.matched = true → c.domain_match_by_pattern = true →
      match_best (pre ++ c :: rest) = match_best_go (some c) rest) ∧
    (b.matched = true → b.domain_match_by_pattern = true → c.matched = true →
      c.priority < b.priority →
      match_best (pre ++ b :: (mid ++ c :: rest)) = some b) ∧
    (b.matched = true → b.domain_match_by_pattern = true → c.matched = true →
      ¬c.priority < b.priority → c.domain_match_by_pattern = false →
      match_best (pre ++ b :: (mid ++ c :: rest)) = some c) ∧
    (b.matched = true → b.domain_match_by_pattern = true → c.matched = true →
      ¬c.priority < b.priority → c.domain_match_by_pattern = true →
      match_best (pre ++ b :: (mid ++ c :: rest)) = match_best_go (some b) rest) ∧
    match_best [candB, candA] = some candA ∧
    match_best [candB, candC] = some candB := by
  refine ⟨?_, ?_, ?_, ?_, ?_, by decide, by decide⟩
  · intro hc hp
    unfold match_best
    rw [match_best_go_skip Option.none pre _ hpre, match_best_go_cons_none c rest hc, hp]
    simp
  · intro hc hp
    unfold match_best
    rw [match_best_go_skip Option.none pre _ hpre, match_best_go_cons_none c rest hc, hp]
    simp
  · intro hb hbp hc hlt
    unfold match_best
    rw [match_best_go_skip Option.none pre _ hpre,
      match_best_go_cons_none b (mid ++ c :: rest) hb, hbp]
    simp only [if_true]
    rw [match_best_go_skip (some b) mid _ hmid, match_best_go_cons_some b c rest hc,
      if_pos hlt]
  · intro hb hbp hc hlt hcp
    unfold match_best
    rw [match_best_go_skip Option.none pre _ hpre,
      match_best_go_cons_none b (mid ++ c :: rest) hb, hbp]
    simp only [if_true]
    rw [match_best_go_skip (some b) mid _ hmid, match_best_go_cons_some b c rest hc,
      if_neg hlt, hcp]
    simp
  · intro hb hbp hc hlt hcp
    unfold match_best
    rw [match_best_go_skip Option.none pre _ hpre,
      match_best_go_cons_none b (mid ++ c :: rest) hb, hbp]
    simp only [if_true]
    rw [match_best_go_skip (some b) mid _ hmid, match_best_go_cons_some b c rest hc,
      if_neg hlt, hcp]
    simp

/-- C2 witness: instantiation at the concrete spec scenario, with a
non-matching higher-priority candidate ahead of the stream. -/
theorem match_best_spec_witness :
    (candA.matched = true → candA.domain_match_by_pattern = false →
      match_best ([candD] ++ candA :: []) = some candA) ∧
    (candA.matched = true → candA.domain_match_by_pattern = true →
      match_best ([candD] ++ candA :: []) = match_best_go (some candA) []) ∧
    (candB.matched = true → candB.domain_match_by_pattern = true → candA.matched = true →
      candA.priority < candB.priority →
      match_best ([candD] ++ candB :: ([] ++ candA :: [])) = some candB) ∧
    (candB.matched = true → candB.domain_match_by_pattern = true → candA.matched = true →
      ¬candA.priority < candB.priority → candA.domain_match_by_pattern = false →
      match_best ([candD] ++ candB :: ([] ++ candA :: [])) = some candA) ∧
    (candB.matched = true → candB.domain_match_by_pattern = true → candA.matched = true →
      ¬candA.priority < candB.priority → candA.domain_match_by_pattern = true →
      match_best ([candD] ++ candB :: ([] ++ candA :: [])) = match_best_go (some candB) []) ∧
    match_best [candB, candA] = some candA ∧
    match_best [candB, candC] = some candB :=
  match_best_spec [candD] [] [] candB candA (by decide) (by decide)

/-! ### Match evaluation: exclude_check and missing context (claims C7, C8) -/

/-- The per-field check of `match` depends only on that field's custom
checker, stored attribute and context value. -/
theorem match_field_congr (r r' : Rule) (ctx ctx' : String → Option Value) (g : String)
    (h1 : r.matchCustom g = r'.matchCustom g) (h2 : r.attrs g = r'.attrs g)
    (h3 : ctx g = ctx' g) :
    match_field r ctx g = match_field r' ctx' g := by
  unfold match_field ctx_get
  rw [h1, h2, h3]

/-- The `match` loop is insensitive to the data of a field in
`exclude_check`: two rules and contexts that agree outside an excluded
field drive the loop identically. -/
theorem match_go_congr (r r' : Rule) (ca : Bool) (exclude : List String)
    (ctx ctx' : String → Option Value) (f : String)
    (hf : f ∈ exclude)
    (hattrs : ∀ g, g ≠ f → r.attrs g = r'.attrs g)
    (hcustom : ∀ g, g ≠ f → r.matchCustom g = r'.matchCustom g)
    (hctx : ∀ g, g ≠ f → ctx g = ctx' g) :
    ∀ (fs : List String) (result : Bool) (invoked : List String)
      (valid : List (String × Bool)),
      match_go r ca exclude ctx fs result invoked valid =
        match_go r' ca exclude ctx' fs result invoked valid := by
  intro fs
  induction fs with
  | nil => intro result invoked valid; rfl
  | cons g fs ih =>
    intro result invoked valid
    by_cases hg : g ∈ exclude
    · simp only [match_go, if_pos hg]
      exact ih result invoked valid
    · have hgf : g ≠ f := fun he => hg (he ▸ hf)
      have hmf : match_field r ctx g = match_field r' ctx' g :=
        match_field_congr r r' ctx ctx' g (hcustom g hgf) (hattrs g hgf) (hctx g hgf)
      simp only [match_go, if_neg hg, ← hmf]
      cases match_field r ctx g with
      | none => rfl
      | some b =>
        cases b with
        | false =>
          cases ca with
          | false => rfl
          | true => exact ih false (invoked ++ [g]) (dict_set valid g false)
        | true => exact ih result (invoked ++ [g]) (dict_set valid g true)

/-- The `match` loop never invokes the checker of a field in
`exclude_check`. -/
theorem match_go_not_invoked (r : Rule) (ca : Bool) (exclude : List String)
    (ctx : String → Option Value) (f : String) (hf : f ∈ exclude) :
    ∀ (fs : List String) (result : Bool) (invoked : List String)
      (valid : List (String × Bool)),
      f ∉ invoked →
      ∀ out, match_go r ca exclude ctx fs result invoked valid = some out →
        f ∉ out.2.1 := by
  intro fs
  induction fs with
  | nil =>
    intro result invoked valid hinv out h
    simp only [match_go, Option.some.injEq] at h
    subst h
    exact hinv
  | cons g fs ih =>
    intro result invoked valid hinv out h
    by_cases hg : g ∈ exclude
    · simp only [match_go, if_pos hg] at h
      exact ih result invoked valid hinv out h
    · have hgf : g ≠ f := fun he => hg (he ▸ hf)
      have hnin : f ∉ invoked ++ [g] := by
        intro hmem
        rcases List.mem_append.mp hmem with hmem | hmem
        · exact hinv hmem
        · exact hgf (List.mem_singleton.mp hmem).symm
      simp only [match_go, if_neg hg] at h
      cases hv : match_field r ctx g with
      | none =>
        rw [hv] at h
        exact absurd h (by simp)
      | some b =>
        rw [hv] at h
        cases b with
        | false =>
          cases ca with
          | false =>
            have h2 : some (false, invoked ++ [g], dict_set valid g false) = some out := h
            simp only [Option.some.injEq] at h2
            subst h2
            exact hnin
          | true =>
            exact ih false (invoked ++ [g]) (dict_set valid g false) hnin out h
        | true =>
          exact ih result (invoked ++ [g]) (dict_set valid g true) hnin out h

/-- C7: for every field in the `exclude_check` set, `match` never
invokes that field's checker, and the field's stored value, custom
checker and context value are irrelevant to the outcome: changing them
arbitrarily leaves the whole result of `match` unchanged, so an
excluded field can never cause `match` to return false. -/
theorem match_exclude_check (r r' : Rule) (ca : Bool) (exclude : List String)
    (ctx ctx' : String → Option Value) (f : String)
    (hf : f ∈ exclude)
    (hparams : r.params_to_check = r'.params_to_check)
    (hattrs : ∀ g, g ≠ f → r.attrs g = r'.attrs g)
    (hcustom : ∀ g, g ≠ f → r.matchCustom g = r'.matchCustom g)
    (hctx : ∀ g, g ≠ f → ctx g = ctx' g) :
    matchRule r ca exclude ctx = matchRule r' ca exclude ctx' ∧
    (∀ out, matchRule r ca exclude ctx = some out → f ∉ out.2.1) := by
  constructor
  · unfold matchRule
    rw [hparams]
    exact match_go_congr r r' ca exclude ctx ctx' f hf hattrs hcustom hctx
      r'.params_to_check true [] []
  · intro out h
    exact match_go_not_invoked r ca exclude ctx f hf r.params_to_check true [] []
      (List.not_mem_nil f) out h

/-- Attributes of the witness rule for `exclude_check`: a domain and a
user id. -/
def exAttrs : String → Option Value := fun g =>
  if g == "dom" then some (Value.str "a.ru")
  else if g == "uid" then some (Value.int 3)
  else Option.none

/-- Same attributes with a different stored domain. -/
def exAttrs2 : String → Option Value := fun g =>
  if g == "dom" then some (Value.str "b.ru")
  else if g == "uid" then some (Value.int 3)
  else Option.none

/-- Witness rule checking `dom` and `uid`. -/
def rEx : Rule :=
  { pk := 5, priority := 0, is_active := true,
    deactivate_on_clean_related_m2m := true,
    attrs := exAttrs, meta := wMeta, custom := noCustom,
    matchCustom := noMatchCustom,
    priority_sorted_fields := [], params_to_check := ["dom", "uid"] }

/-- The witness rule with the excluded field's stored value changed. -/
def rEx2 : Rule := { rEx with attrs := exAttrs2 }

/-- Context without a `dom` value. -/
def ctxEx : String → Option Value := fun g =>
  if g == "uid" then some (Value.int 3) else Option.none

/-- Context with a clashing `dom` value. -/
def ctxEx2 : String → Option Value := fun g =>
  if g == "dom" then some (Value.str "zzz")
  else if g == "uid" then some (Value.int 3)
  else Option.none

/-- C7 witness: with `dom` excluded, changing the stored domain and the
context domain changes nothing, and `dom`'s checker is never invoked. -/
theorem match_exclude_check_witness :
    matchRule rEx false ["dom"] ctxEx = matchRule rEx2 false ["dom"] ctxEx2 ∧
    (∀ out, matchRule rEx false ["dom"] ctxEx = some out → "dom" ∉ out.2.1) :=
  match_exclude_check rEx rEx2 false ["dom"] ctxEx ctxEx2 "dom"
    (by simp)
    rfl
    (by
      intro g hg
      have hb : (g == "dom") = false := by simpa using hg
      simp [rEx, rEx2, exAttrs, exAttrs2, hb])
    (fun g hg => rfl)
    (by
      intro g hg
      have hb : (g == "dom") = false := by simpa using hg
      simp [ctxEx, ctxEx2, hb])

/-- Witness rule for the missing-context behavior: one checked field
`dom` with a populated stored value. -/
def rC8 : Rule :=
  { pk := 8, priority := 0, is_active := true,
    deactivate_on_clean_related_m2m := true,
    attrs := fun g => if g == "dom" then some (Value.str "rutube.ru") else Option.none,
    meta := fun _ => Option.none, custom := noCustom, matchCustom := noMatchCustom,
    priority_sorted_fields := [], params_to_check := ["dom"] }

/-- The empty context. -/
def ctxNone : String → Option Value := fun _ => Option.none

/-- C8 counterexample: `match` does not skip a field absent from the
supplied context.  On a rule whose only checked field `dom` stores a
populated value, matching against the empty context invokes the `dom`
checker (it compares the stored value with Python `None`) and returns
false — the field blocks the match instead of being treated as
non-blocking, and no variant of `match` skips it. -/
theorem match_missing_context_counterexample :
    matchRule rC8 false [] ctxNone = some (false, ["dom"], [("dom", false)]) ∧
    matchRule rC8 true [] ctxNone = some (false, ["dom"], [("dom", false)]) ∧
    matchRule rC8 false [] ctxNone ≠ some (true, [], []) := by
  refine ⟨rfl, rfl, by decide⟩

/-- C8 amended: `match` checks every non-excluded field of
`params_to_check` even when the context omits it: the field's checker
receives `kwargs.get(f)`, which is Python `None` for a missing key, and
for the default equality checker the verdict is the comparison of the
stored value with `None`.  The only selectable behaviors of `match` are
`check_all` (evaluate everything vs short-circuit) and `exclude_check`;
no variant skips missing-context fields. -/
theorem match_checks_missing_context (r : Rule) (ca : Bool) (exclude : List String)
    (ctx : String → Option Value) (f : String) (fs : List String) (v : Value)
    (hps : r.params_to_check = f :: fs)
    (hex : f ∉ exclude)
    (hcustom : r.matchCustom f = Option.none)
    (hattr : r.attrs f = some v)
    (hctx : ctx f = Option.none) :
    matchRule r ca exclude ctx =
      (if pyEq v Value.none then
        match_go r ca exclude ctx fs true [f] [(f, true)]
      else if ca then
        match_go r ca exclude ctx fs false [f] [(f, false)]
      else
        some (false, [f], [(f, false)])) := by
  unfold matchRule
  rw [hps]
  have hmf : match_field r ctx f = some (pyEq v Value.none) := by
    unfold match_field ctx_get
    rw [hcustom, hattr, hctx]
  cases hv : pyEq v Value.none with
  | false =>
    rw [hv] at hmf
    simp only [match_go, if_neg hex, hmf]
    cases ca with
    | false => rfl
    | true => rfl
  | true =>
    rw [hv] at hmf
    simp only [match_go, if_neg hex, hmf]
    rfl

/-- C8 amended-claim witness: on the concrete rule with stored domain
`rutube.ru` and the empty context, the missing `dom` context value is
checked and fails the match. -/
theorem match_checks_missing_context_witness :
    matchRule rC8 false [] ctxNone =
      (if pyEq (Value.str "rutube.ru") Value.none then
        match_go rC8 false [] ctxNone [] true ["dom"] [("dom", true)]
      else if false then
        match_go rC8 false [] ctxNone [] false ["dom"] [("dom", false)]
      else
        some (false, ["dom"], [("dom", false)])) :=
  match_checks_missing_context rC8 false [] ctxNone "dom" [] (Value.str "rutube.ru")
    rfl (List.not_mem_nil "dom") rfl rfl rfl

/-! ### Validation result (claim C6) -/

/-- Lookup in an appended association list: the left part wins. -/
theorem alist_get_append (l l2 : List (String × Bool)) (k : String) :
    alist_get (l ++ l2) k =
      match alist_get l k with
      | some b => some b
      | Option.none => alist_get l2 k := by
  induction l with
  | nil => rfl
  | cons p l ih =>
    unfold alist_get at ih ⊢
    rw [List.cons_append]
    cases hp : (p.1 == k) with
    | true => simp [List.find?, hp]
    | false =>
      simp only [List.find?, hp]
      exact ih

/-- Lookup of the key just appended to the cache. -/
theorem alist_get_append_self (l : List (String × Bool)) (k : String) (b : Bool)
    (h : alist_get l k = Option.none) :
    alist_get (l ++ [(k, b)]) k = some b := by
  rw [alist_get_append, h]
  unfold alist_get
  simp [List.find?]

/-- Invariant of the memoization state: no predicate has been invoked
twice, and every invoked key is cached. -/
def ValidInv (v : Validation) : Prop :=
  v.calls.Nodup ∧ ∀ k ∈ v.calls, (alist_get v.validation k).isSome = true

/-- `__getitem__` preserves the memoization invariant. -/
theorem getItem_preserves_inv (v : Validation) (k : String) (h : ValidInv v) :
    ValidInv (v.getItem k).2 := by
  unfold Validation.getItem
  cases hc : alist_get v.validation k with
  | some b => exact h
  | none =>
    cases hck : alist_get v.checkers k with
    | none => exact h
    | some b =>
      have hknot : k ∉ v.calls := by
        intro hmem
        have := h.2 k hmem
        rw [hc] at this
        exact absurd this (by simp)
      constructor
      · exact List.Nodup.append h.1 (List.nodup_singleton k)
          (List.disjoint_singleton.mpr hknot)
      · intro k2 hk2
        rcases List.mem_append.mp hk2 with h2 | h2
        · have hs := h.2 k2 h2
          rw [alist_get_append]
          cases hg : alist_get v.validation k2 with
          | some b2 => simp
          | none => rw [hg] at hs; exact absurd hs (by simp)
        · have hk2k : k2 = k := List.mem_singleton.mp h2
          subst hk2k
          rw [alist_get_append_self v.validation k2 b hc]
          simp

/-- `runGets` preserves the memoization invariant. -/
theorem runGets_preserves_inv (ops : List String) :
    ∀ v : Validation, ValidInv v → ValidInv (v.runGets ops) := by
  induction ops with
  | nil => intro v h; exact h
  | cons k ops ih =>
    intro v h
    exact ih (v.getItem k).2 (getItem_preserves_inv v k h)

/-- After a successful `__getitem__`, looking the same key up again
returns the same cached verdict and leaves the state unchanged: the
predicate is not re-invoked. -/
theorem getItem_memoized (v : Validation) (k : String) (b : Bool) (v1 : Validation)
    (h : v.getItem k = (some b, v1)) : v1.getItem k = (some b, v1) := by
  unfold Validation.getItem at h ⊢
  cases hc : alist_get v.validation k with
  | some b2 =>
    rw [hc] at h
    have h2 : (some b2, v) = ((some b : Option Bool), v1) := h
    simp only [Prod.mk.injEq, Option.some.injEq] at h2
    obtain ⟨hb, hv1⟩ := h2
    subst hb; subst hv1
    rw [hc]
  | none =>
    rw [hc] at h
    cases hck : alist_get v.checkers k with
    | none =>
      rw [hck] at h
      have h2 : ((Option.none : Option Bool), v) = ((some b : Option Bool), v1) := h
      simp at h2
    | some b2 =>
      rw [hck] at h
      have h2 : ((some b2 : Option Bool),
          Validation.mk v.checkers (v.validation ++ [(k, b2)]) (v.calls ++ [k])) =
          (some b, v1) := h
      simp only [Prod.mk.injEq, Option.some.injEq] at h2
      obtain ⟨hb, hv1⟩ := h2
      subst hv1
      dsimp only
      rw [alist_get_append_self v.validation k b2 hc, hb]

/-- The validation result built from the ordered predicates
a ↦ true, b ↦ false, c ↦ true. -/
def val0 : Validation :=
  Validation.ofList [("a", true), ("b", false), ("c", true)]

/-- `val0` starts with an unviolated memoization invariant. -/
theorem val0_inv : ValidInv val0 :=
  ⟨List.nodup_nil, fun k hk => absurd hk (List.not_mem_nil k)⟩

/-- C6: for the validation result built from the ordered predicates
a ↦ true, b ↦ false, c ↦ true: boolean coercion is false, the length
is 3, iteration yields the keys in declaration order; a verdict once
returned is memoized — looking the key up again returns the same cached
boolean with the state unchanged, so the predicate is not re-invoked —
and under every sequence of lookups every predicate is invoked at most
once. -/
theorem validation_spec :
    (val0.nonzero).1 = some false ∧
    val0.len = 3 ∧
    val0.keys = ["a", "b", "c"] ∧
    (∀ (b : Bool) (v1 : Validation),
      val0.getItem "c" = (some b, v1) → v1.getItem "c" = (some b, v1)) ∧
    (∀ (ops : List String) (k : String), (val0.runGets ops).callCount k ≤ 1) := by
  refine ⟨rfl, rfl, rfl, ?_, ?_⟩
  · intro b v1 h
    exact getItem_memoized val0 "c" b v1 h
  · intro ops k
    have hinv := runGets_preserves_inv ops val0 val0_inv
    unfold Validation.callCount
    exact List.nodup_iff_count_le_one.mp hinv.1 k

/-- The state of `val0` after the predicate for `c` has been evaluated
and cached. -/
def val0c : Validation := (val0.getItem "c").2

/-- C6 witness: re-fetching `c` returns the cached verdict with no new
invocation, and fetching `c` twice leaves its predicate invoked at most
once. -/
theorem validation_spec_witness :
    val0c.getItem "c" = (some true, val0c) ∧
    (val0.runGets ["c", "c"]).callCount "c" ≤ 1 :=
  ⟨validation_spec.2.2.2.1 true val0c rfl,
   validation_spec.2.2.2.2 ["c", "c"] "c"⟩

/-! ### Related-record deletion cascade (claim C10) -/

/-- Full case analysis of a returning `update_priority` call. -/
theorem update_priority_cases (r : Rule) (db : List DBRec)
    (r' : Rule) (db' : List DBRec) (w : Bool)
    (h : update_priority r db = some (r', db', w)) :
    ∃ p : Nat, priority_dec r = some p ∧
      (((p : Int) = r.priority ∧ r' = r ∧ db' = db ∧ w = false) ∨
       (¬(p : Int) = r.priority ∧ r' = { r with priority := (p : Int) } ∧
        db' = db_update_priority db r.pk (p : Int) ∧ w = true)) := by
  unfold update_priority at h
  cases hp : priority_dec r with
  | none => rw [hp] at h; exact absurd h (by simp)
  | some p =>
    rw [hp] at h
    dsimp only at h
    by_cases he : (p : Int) = r.priority
    · rw [if_pos he] at h
      simp only [Option.some.injEq, Prod.mk.injEq] at h
      obtain ⟨h1, h2, h3⟩ := h
      exact ⟨p, rfl, Or.inl ⟨he, h1.symm, h2.symm, h3.symm⟩⟩
    · rw [if_neg he] at h
      simp only [Option.some.injEq, Prod.mk.injEq] at h
      obtain ⟨h1, h2, h3⟩ := h
      exact ⟨p, rfl, Or.inr ⟨he, h1.symm, h2.symm, h3.symm⟩⟩

/-- A full save of a rule whose stored priority already matches its
bitmask: the row is written and the `post_save` recomputation is a
no-op. -/
theorem save_rule_nowrite (m : Rule) (db : List DBRec) (p : Nat)
    (hp : priority_dec m = some p) (hpr : m.priority = (p : Int)) :
    save_rule m db = some (m, db.map (fun rec =>
      if rec.pk = m.pk then { rec with priority := m.priority, is_active := m.is_active }
      else rec)) := by
  unfold save_rule
  have hup : update_priority m (db.map (fun rec =>
      if rec.pk = m.pk then { rec with priority := m.priority, is_active := m.is_active }
      else rec)) = some (m, db.map (fun rec =>
      if rec.pk = m.pk then { rec with priority := m.priority, is_active := m.is_active }
      else rec), false) := by
    unfold update_priority
    rw [hp]
    dsimp only
    rw [if_pos hpr.symm]
  rw [hup]

/-- What the deletion handler does to one dependent rule of the ledger:
priority recomputed; deactivation, save, and exactly one signal iff the
priority changed and auto-deactivation is configured; `is_active`
untouched otherwise. -/
theorem process_rule_facts (rel : Nat) (m : Rule) (db : List DBRec)
    (m' : Rule) (db' : List DBRec) (evs : List DeactEvent)
    (h : process_rule rel m db = some (m', db', evs)) :
    (priority_dec m).map (fun q : Nat => (q : Int)) = some m'.priority ∧
    m'.pk = m.pk ∧
    evs = (if m'.priority ≠ m.priority ∧ m.deactivate_on_clean_related_m2m = true
           then [⟨m.pk, rel⟩] else []) ∧
    (m'.priority ≠ m.priority → m.deactivate_on_clean_related_m2m = true →
      m'.is_active = false ∧ ∀ rec ∈ db', rec.pk = m.pk → rec.is_active = false) ∧
    (m.deactivate_on_clean_related_m2m = false → m'.is_active = m.is_active) := by
  unfold process_rule at h
  cases hu : update_priority m db with
  | none => rw [hu] at h; exact absurd h (by simp)
  | some t =>
    obtain ⟨m1, db1, w⟩ := t
    rw [hu] at h
    dsimp only at h
    obtain ⟨p, hp, hcase⟩ := update_priority_cases m db m1 db1 w hu
    rcases hcase with ⟨he, hm1, hdb1, hw⟩ | ⟨he, hm1, hdb1, hw⟩
    · -- priority unchanged: no deactivation, no signal
      have hcnot : ¬(m.priority ≠ m1.priority ∧
          m1.deactivate_on_clean_related_m2m = true) := by
        rw [hm1]
        intro hc
        exact hc.1 rfl
      rw [if_neg hcnot] at h
      have h2 : some ((m1, db1, ([] : List DeactEvent)) :
          Rule × List DBRec × List DeactEvent) = some (m', db', evs) := h
      simp only [Option.some.injEq, Prod.mk.injEq] at h2
      obtain ⟨hm, hdb, hevs⟩ := h2
      subst hm; subst hdb; subst hevs; subst hm1; subst hdb1
      refine ⟨by rw [hp]; exact congrArg some he, rfl, ?_, ?_, fun _ => rfl⟩
      · rw [if_neg (fun hc => hc.1 rfl)]
      · intro hne _
        exact absurd rfl hne
    · -- priority changed
      have hm1p : m1.priority = (p : Int) := by rw [hm1]
      have hpkm : m1.pk = m.pk := by rw [hm1]
      have hp1 : priority_dec m1 = some p := by
        rw [hm1, priority_dec_set_priority m (p : Int)]
        exact hp
      cases hd : m1.deactivate_on_clean_related_m2m with
      | true =>
        have hmd : m.deactivate_on_clean_related_m2m = true := by
          rw [hm1] at hd
          exact hd
        have hne1 : m.priority ≠ m1.priority := by
          rw [hm1p]
          exact fun hc => he hc.symm
        rw [if_pos ⟨hne1, hd⟩] at h
        have hp2 : priority_dec { m1 with is_active := false } = some p :=
          (priority_dec_set_is_active m1 false).trans hp1
        have hsave := save_rule_nowrite { m1 with is_active := false } db1 p hp2 hm1p
        rw [hsave] at h
        have h2 : some (({ m1 with is_active := false } : Rule), db1.map (fun rec =>
            if rec.pk = m1.pk then DBRec.mk rec.pk m1.priority false rec.extra
            else rec), [(⟨m1.pk, rel⟩ : DeactEvent)]) = some (m', db', evs) := h
        simp only [Option.some.injEq, Prod.mk.injEq] at h2
        obtain ⟨hm, hdb, hevs⟩ := h2
        subst hm; subst hdb; subst hevs
        have hne : ({ m1 with is_active := false } : Rule).priority ≠ m.priority :=
          fun hc => he (hm1p.symm.trans hc)
        refine ⟨?_, ?_, ?_, ?_, ?_⟩
        · rw [hp]
          exact (congrArg some hm1p).symm
        · exact hpkm
        · rw [if_pos ⟨hne, hmd⟩, hpkm]
        · intro _ _
          refine ⟨rfl, ?_⟩
          intro rec hrec hpk
          obtain ⟨a, ha, rfl⟩ := List.mem_map.mp hrec
          by_cases hapk : a.pk = m1.pk
          · rw [if_pos hapk]
          · rw [if_neg hapk] at hpk ⊢
            exact absurd (hpk.trans hpkm.symm) hapk
        · intro hdf
          rw [hmd] at hdf
          simp at hdf
      | false =>
        have hmd : m.deactivate_on_clean_related_m2m = false := by
          rw [hm1] at hd
          exact hd
        rw [if_neg (fun hc => absurd hc.2 (by simp [hd]))] at h
        have h2 : some ((m1, db1, ([] : List DeactEvent)) :
            Rule × List DBRec × List DeactEvent) = some (m', db', evs) := h
        simp only [Option.some.injEq, Prod.mk.injEq] at h2
        obtain ⟨hm, hdb, hevs⟩ := h2
        subst hm; subst hdb; subst hevs
        refine ⟨?_, hpkm, ?_, ?_, ?_⟩
        · rw [hp]
          exact (congrArg some hm1p).symm
        · rw [if_neg (fun hc => absurd hc.2 (by simp [hmd]))]
        · intro _ hdd
          exact absurd hdd (by simp [hmd])
        · intro _
          rw [hm1]

/-- Every dependent rule threaded through the deletion handler has its
priority recomputed, in order. -/
theorem process_rules_all (rel : Nat) :
    ∀ (ms : List Rule) (db : List DBRec) (ms' : List Rule) (db' : List DBRec)
      (evs : List DeactEvent),
      process_rules rel ms db = some (ms', db', evs) →
      ms'.length = ms.length ∧
      ∀ (i : Nat) (hi : i < ms.length) (hi' : i < ms'.length),
        (priority_dec (ms.get ⟨i, hi⟩)).map (fun q : Nat => (q : Int)) =
          some ((ms'.get ⟨i, hi'⟩).priority) := by
  intro ms
  induction ms with
  | nil =>
    intro db ms' db' evs h
    have h2 : some (([] : List Rule), db, ([] : List DeactEvent)) =
        some (ms', db', evs) := h
    simp only [Option.some.injEq, Prod.mk.injEq] at h2
    obtain ⟨hms, hdb, hevs⟩ := h2
    subst hms
    exact ⟨rfl, fun i hi hi' => absurd hi (by simp)⟩
  | cons m ms ih =>
    intro db ms' db' evs h
    simp only [process_rules] at h
    cases hpr : process_rule rel m db with
    | none => rw [hpr] at h; exact absurd h (by simp)
    | some t1 =>
      obtain ⟨m1, db1, evs1⟩ := t1
      rw [hpr] at h
      have h3 : (match process_rules rel ms db1 with
          | Option.none => Option.none
          | some (ms1, db2, evs2) => some (m1 :: ms1, db2, evs1 ++ evs2)) =
          some (ms', db', evs) := h
      cases hrest : process_rules rel ms db1 with
      | none =>
        rw [hrest] at h3
        exact absurd h3 (by simp)
      | some t2 =>
        obtain ⟨ms2, db2, evs2⟩ := t2
        rw [hrest] at h3
        have h2 : some (m1 :: ms2, db2, evs1 ++ evs2) = some (ms', db', evs) := h3
        simp only [Option.some.injEq, Prod.mk.injEq] at h2
        obtain ⟨hms, hdb, hevs⟩ := h2
        subst hms; subst hdb; subst hevs
        have hfst := (process_rule_facts rel m db m1 db1 evs1 hpr).1
        have hrec := ih db1 ms2 db2 evs2 hrest
        refine ⟨by simp [hrec.1], ?_⟩
        intro i hi hi'
        cases i with
        | zero => exact hfst
        | succ j =>
          have hj : j < ms.length := by simpa using hi
          have hj' : j < ms2.length := by simpa using hi'
          exact hrec.2 j hj hj'

/-- C10: on deletion of a related record, every dependent rule in the
pending-recompute ledger has its priority recomputed; per rule, the
deactivation signal carrying that rule and the deleted record fires
exactly once exactly when the priority changed and auto-deactivation is
configured, in which case `is_active` is cleared in memory and in the
rule's stored row; a rule not configured to auto-deactivate keeps its
`is_active` value. -/
theorem m2m_delete_cascade_spec (rel : Nat) :
    (∀ (m : Rule) (db : List DBRec) (m' : Rule) (db' : List DBRec)
       (evs : List DeactEvent),
      process_rule rel m db = some (m', db', evs) →
      (priority_dec m).map (fun q : Nat => (q : Int)) = some m'.priority ∧
      m'.pk = m.pk ∧
      evs = (if m'.priority ≠ m.priority ∧ m.deactivate_on_clean_related_m2m = true
             then [⟨m.pk, rel⟩] else []) ∧
      (m'.priority ≠ m.priority → m.deactivate_on_clean_related_m2m = true →
        m'.is_active = false ∧ ∀ rec ∈ db', rec.pk = m.pk → rec.is_active = false) ∧
      (m.deactivate_on_clean_related_m2m = false → m'.is_active = m.is_active)) ∧
    (∀ (ledger : List (List Rule)) (db : List DBRec) (ms' : List Rule)
       (db' : List DBRec) (evs : List DeactEvent),
      update_priority_on_m2m_model_delete rel ledger db = some (ms', db', evs) →
      ms'.length = ledger.flatten.length ∧
      ∀ (i : Nat) (hi : i < ledger.flatten.length) (hi' : i < ms'.length),
        (priority_dec (ledger.flatten.get ⟨i, hi⟩)).map (fun q : Nat => (q : Int)) =
          some ((ms'.get ⟨i, hi'⟩).priority)) :=
  ⟨fun m db m' db' evs h => process_rule_facts rel m db m' db' evs h,
   fun ledger db ms' db' evs h => process_rules_all rel ledger.flatten db ms' db' evs h⟩

/-- Attributes of the cascade witness rules: the m2m targeting field
`cats` has just lost its last member. -/
def mAttrs : String → Option Value := fun f =>
  if f == "cats" then some (Value.qs []) else Option.none

/-- Cascade witness rule configured to auto-deactivate, with stale
stored priority 1. -/
def rM : Rule :=
  { pk := 21, priority := 1, is_active := true,
    deactivate_on_clean_related_m2m := true,
    attrs := mAttrs, meta := wMeta, custom := noCustom,
    matchCustom := noMatchCustom,
    priority_sorted_fields := ["cats"], params_to_check := [] }

/-- `rM` after recomputation. -/
def rM1 : Rule := { rM with priority := 0 }

/-- `rM` after recomputation and auto-deactivation. -/
def rM2 : Rule := { rM1 with is_active := false }

/-- Database row of `rM` before the cascade. -/
def dbM : List DBRec := [⟨21, 1, true, []⟩]

/-- Database after the cascade: priority recomputed, rule deactivated. -/
def dbM2 : List DBRec := [⟨21, 0, false, []⟩]

/-- Cascade witness rule configured not to auto-deactivate. -/
def rN : Rule := { rM with pk := 22, deactivate_on_clean_related_m2m := false }

/-- `rN` after recomputation: still active. -/
def rN1 : Rule := { rN with priority := 0 }

/-- Database row of `rN` before the cascade. -/
def dbN : List DBRec := [⟨22, 1, true, []⟩]

/-- Database after the cascade for `rN`: priority updated, row still
active. -/
def dbN1 : List DBRec := [⟨22, 0, true, []⟩]

/-- C10 witness: the auto-deactivating rule is recomputed, deactivated
in memory and in the store, and signalled exactly once; the
non-deactivating rule is recomputed but keeps `is_active`; the handler
processes the whole ledger. -/
theorem m2m_delete_cascade_spec_witness :
    ((priority_dec rM).map (fun q : Nat => (q : Int)) = some rM2.priority ∧
      rM2.pk = rM.pk ∧
      ([⟨rM.pk, 77⟩] : List DeactEvent) =
        (if rM2.priority ≠ rM.priority ∧ rM.deactivate_on_clean_related_m2m = true
         then [⟨rM.pk, 77⟩] else []) ∧
      (rM2.priority ≠ rM.priority → rM.deactivate_on_clean_related_m2m = true →
        rM2.is_active = false ∧ ∀ rec ∈ dbM2, rec.pk = rM.pk → rec.is_active = false) ∧
      (rM.deactivate_on_clean_related_m2m = false → rM2.is_active = rM.is_active)) ∧
    ((priority_dec rN).map (fun q : Nat => (q : Int)) = some rN1.priority ∧
      rN1.pk = rN.pk ∧
      ([] : List DeactEvent) =
        (if rN1.priority ≠ rN.priority ∧ rN.deactivate_on_clean_related_m2m = true
         then [⟨rN.pk, 77⟩] else []) ∧
      (rN1.priority ≠ rN.priority → rN.deactivate_on_clean_related_m2m = true →
        rN1.is_active = false ∧ ∀ rec ∈ dbN1, rec.pk = rN.pk → rec.is_active = false) ∧
      (rN.deactivate_on_clean_related_m2m = false → rN1.is_active = rN.is_active)) ∧
    ([rM2].length = ([[rM]].flatten).length ∧
      ∀ (i : Nat) (hi : i < ([[rM]].flatten).length) (hi' : i < [rM2].length),
        (priority_dec (([[rM]].flatten).get ⟨i, hi⟩)).map (fun q : Nat => (q : Int)) =
          some (([rM2].get ⟨i, hi'⟩).priority)) :=
  ⟨(m2m_delete_cascade_spec 77).1 rM dbM rM2 dbM2 [⟨rM.pk, 77⟩] rfl,
   (m2m_delete_cascade_spec 77).1 rN dbN rN1 dbN1 [] rfl,
   (m2m_delete_cascade_spec 77).2 [[rM]] dbM [rM2] dbM2 [⟨rM.pk, 77⟩] rfl⟩

end RuleModel
